import Mathlib

/-!
Verification of the chain-offset indexing and interface-aggregation core of
the AlphaFold_scripts repository, shallowly embedded from
get_interchain_plddt.py and get_select_interchain_PAE_from_pkl.py.

Modelling conventions: Python floats are embedded as rationals, Python lists
as Lean lists, numpy arrays as total functions (for the pairwise matrix) or
lists (for the flat pLDDT array), Python dicts either as a total function
paired with its key set (areas) or as key-ordered association lists (the
synthetic test-mode dicts), and Python exceptions as an Except monad over an
explicit error type.  Python set iteration order is unspecified; sets are
embedded as Finsets and iterated in sorted order, which leaves every
sum/length observation unchanged.
-/

/-- Error conditions the embedded code can raise (matching the Python
exception classes that the source can actually produce), together with the
error kinds named by the specification, which the source never raises, so
that claims about them can be stated and refuted. -/
inductive PyError where
  | zeroDivisionError
  | keyError
  | indexError
  | nameError
  | runtimeError
  | valueError
  | configurationError
  | lookupError
  | rangeError
  | emptyResultError
  deriving DecidableEq

/-- string.ascii_uppercase + string.ascii_lowercase: the fixed list of
one-character chain labels, consumed in declaration order. -/
def alphabet : List String :=
  ["A", "B", "C", "D", "E", "F", "G", "H", "I", "J", "K", "L", "M",
   "N", "O", "P", "Q", "R", "S", "T", "U", "V", "W", "X", "Y", "Z",
   "a", "b", "c", "d", "e", "f", "g", "h", "i", "j", "k", "l", "m",
   "n", "o", "p", "q", "r", "s", "t", "u", "v", "w", "x", "y", "z"]

/-- numpy slice pae[r0:r1, c0:c1] of the (total) pairwise matrix, row-major,
as a list of rows. -/
def paeSlice (pae : ℕ → ℕ → ℚ) (r0 r1 c0 c1 : ℕ) : List (List ℚ) :=
  (List.range (r1 - r0)).map fun i => (List.range (c1 - c0)).map fun j => pae (r0 + i) (c0 + j)

/-- get_ich_pae: the backward slice pae[start1:stop1, start0:stop0] and the
forward slice pae[start0:stop0, start1:stop1], each flattened row-major
(reshape to one row) and concatenated with the backward slice first, exactly
as np.concatenate((ich_bycols, ich_byrows), axis=1). -/
def get_ich_pae (start0 stop0 start1 stop1 : ℕ) (pae : ℕ → ℕ → ℚ) : List ℚ :=
  (paeSlice pae start1 stop1 start0 stop0).flatten ++
    (paeSlice pae start0 stop0 start1 stop1).flatten

/-- get_ch_pae: the diagonal block pae[start:stop, start:stop] flattened. -/
def get_ch_pae (start stop : ℕ) (pae : ℕ → ℕ → ℚ) : List ℚ :=
  (paeSlice pae start stop start stop).flatten

/-- Index of the first list element satisfying p, as computed by
[n for n, i in enumerate(seqs) if p i][0] in the source. -/
def findFirstIdx (p : String × String → Bool) : List (String × String) → Option ℕ
  | [] => none
  | x :: xs => if p x then some 0 else (findFirstIdx p xs).map (· + 1)

/-- Sum of the lengths of the first i sequences: the running global offset
(start position) owned by chain number i. -/
def chainStart (seqs : List (String × String)) (i : ℕ) : ℕ :=
  ((seqs.take i).map (fun s => s.2.length)).sum

/-- Total number of residues N: the sum of all chain lengths. -/
def totalLen (seqs : List (String × String)) : ℕ :=
  (seqs.map (fun s => s.2.length)).sum

/-- Resolution of a chain description to its half-open global residue range
inside process_pair_pae: the first sequence whose description equals the
requested name is used; when no description matches, the source raises
RuntimeError. -/
def findStartStop (name : String) (seqs : List (String × String)) : Except PyError (ℕ × ℕ) :=
  match findFirstIdx (fun s => s.1 == name) seqs with
  | none => .error .runtimeError
  | some idx => .ok (chainStart seqs idx, chainStart seqs idx + (seqs.getD idx ("", "")).2.length)

/-- process_pair_pae: resolve both chain names to global ranges (query chain
first, so its lookup failure surfaces first), then return the flattened
diagonal block of the query chain and the flattened two-directional
inter-chain block. -/
def process_pair_pae (name0 name1 : String) (seqs : List (String × String))
    (pae : ℕ → ℕ → ℚ) : Except PyError (List ℚ × List ℚ) := do
  let r0 ← findStartStop name0 seqs
  let r1 ← findStartStop name1 seqs
  .ok (get_ch_pae r0.1 r0.2 pae, get_ich_pae r0.1 r0.2 r1.1 r1.2 pae)

/-- np.median on a nonempty list: middle element of the sorted list for odd
length, average of the two middle elements for even length.  (The empty case
is never reached in the source: both uses are guarded by size checks.) -/
def npMedian (l : List ℚ) : ℚ :=
  let s := List.insertionSort (· ≤ ·) l
  if l.length % 2 = 1 then s.getD (l.length / 2) 0
  else (s.getD (l.length / 2 - 1) 0 + s.getD (l.length / 2) 0) / 2

/-- np.mean on a nonempty list (both uses in the source are guarded by size
checks). -/
def npMean (l : List ℚ) : ℚ := l.sum / (l.length : ℚ)

/-- The PAE summary record assembled by get_chain_v_chain_PAE_res_pkl (the
scalar statistics; the echoed file name and chain lists are I/O glue). -/
structure PaeSummary where
  ch_PAE_median : ℚ
  ch_PAE_mean : ℚ
  ich_PAE_median : ℚ
  ich_PAE_mean : ℚ
  deriving DecidableEq

/-- get_chain_v_chain_PAE_res_pkl: evaluate every (query, target) pair,
concatenate the per-pair diagonal and inter-chain blocks, and summarize.
np.concatenate of an empty list of arrays raises ValueError; each size-zero
check raises NameError, because the logging f-string on that path references
the undefined variable pkl_f. -/
def get_chain_v_chain_PAE_res_pkl (seqs : List (String × String)) (pae : ℕ → ℕ → ℚ)
    (query_chains target_chains : List String) : Except PyError PaeSummary := do
  let pairs := (query_chains.map (fun q => target_chains.map fun t => (q, t))).flatten
  let pair_res ← pairs.mapM (fun p => process_pair_pae p.1 p.2 seqs pae)
  if pairs.isEmpty then .error .valueError else
  let ch_pae := (pair_res.map Prod.fst).flatten
  let ich_pae := (pair_res.map Prod.snd).flatten
  if ch_pae.isEmpty then .error .nameError else
  if ich_pae.isEmpty then .error .nameError else
  .ok ⟨npMedian ch_pae, npMean ch_pae, npMedian ich_pae, npMean ich_pae⟩

/-- get_chain_descriptions: map each chain letter to the description of the
sequence at the letter's alphabet position.  alphabet.index raises
ValueError for a letter outside the alphabet; fasta_data[i] raises
IndexError when the position is beyond the sequence list. -/
def get_chain_descriptions (fasta_data : List (String × String)) (chains : List String) :
    Except PyError (List String) :=
  chains.mapM fun ch =>
    if ch ∈ alphabet then
      match fasta_data.get? (alphabet.indexOf ch) with
      | some sd => .ok sd.1
      | none => .error .indexError
    else .error .valueError

/-- Python list indexing with an integer index: nonnegative indices read
directly, negative indices at least -len read from the end, anything else
raises IndexError. -/
def pyListIndex (xs : List ℚ) (i : ℤ) : Except PyError ℚ :=
  if 0 ≤ i ∧ i < (xs.length : ℤ) then .ok (xs.getD i.toNat 0)
  else if -(xs.length : ℤ) ≤ i ∧ i < 0 then .ok (xs.getD (i + (xs.length : ℤ)).toNat 0)
  else .error .indexError

/-- Python dict read interface_areas[k]: the stored value when the key is
present, KeyError otherwise.  The dict is embedded as a total value function
together with its key set. -/
def dictGetArea (areaDom : Finset (String × ℤ)) (areas : String × ℤ → ℚ) (k : String × ℤ) :
    Except PyError ℚ :=
  if k ∈ areaDom then .ok (areas k) else .error .keyError

/-- Inner loop of get_plddt_values_for_residues over one chain's interface
residue numbers: read the pLDDT value at the global index
current_sequence_start_position + residue_no - 1, weight it by the residue's
accumulated area, and append to both output lists. -/
def plddtResidueLoop (plddt : List ℚ) (areaDom : Finset (String × ℤ))
    (areas : String × ℤ → ℚ) (letter : String) (start : ℕ) :
    List ℤ → Except PyError (List ℚ × List ℚ)
  | [] => .ok ([], [])
  | r :: rs => do
    let p ← pyListIndex plddt ((start : ℤ) + r - 1)
    let a ← dictGetArea areaDom areas (letter, r)
    let rest ← plddtResidueLoop plddt areaDom areas letter start rs
    .ok (p :: rest.1, p * a :: rest.2)

/-- Outer loop of get_plddt_values_for_residues over the sequences: assign
the next alphabet letter to each chain (IndexError once the alphabet is
exhausted), skip chains whose letter is absent from the interface-residue
dict (the KeyError branch) while still advancing the running offset, and
otherwise process the chain's interface residue set (iterated in sorted
order, standing in for Python's unspecified set order). -/
def plddtChainLoop (plddt : List ℚ) (ifaceRes : String → Option (Finset ℤ))
    (areaDom : Finset (String × ℤ)) (areas : String × ℤ → ℚ) :
    List String → ℕ → List (String × String) → Except PyError (List ℚ × List ℚ)
  | _, _, [] => .ok ([], [])
  | [], _, _ :: _ => .error .indexError
  | letter :: rest, start, (_, s) :: tl =>
    match ifaceRes letter with
    | none => plddtChainLoop plddt ifaceRes areaDom areas rest (start + s.length) tl
    | some ps => do
      let cur ← plddtResidueLoop plddt areaDom areas letter start (ps.sort (· ≤ ·))
      let restRes ← plddtChainLoop plddt ifaceRes areaDom areas rest (start + s.length) tl
      .ok (cur.1 ++ restRes.1, cur.2 ++ restRes.2)

/-- get_plddt_values_for_residues: walk the sequences in declaration order
starting from the full alphabet and a zero offset. -/
def get_plddt_values_for_residues (plddt : List ℚ) (seqs : List (String × String))
    (ifaceRes : String → Option (Finset ℤ)) (areaDom : Finset (String × ℤ))
    (areas : String × ℤ → ℚ) : Except PyError (List ℚ × List ℚ) :=
  plddtChainLoop plddt ifaceRes areaDom areas alphabet 0 seqs

/-- Python division: ZeroDivisionError on a zero denominator. -/
def pyDiv (a b : ℚ) : Except PyError ℚ :=
  if b = 0 then .error .zeroDivisionError else .ok (a / b)

/-- The two scalar aggregates printed by main of get_interchain_plddt.py, in
evaluation order: sum(plddt_values)/len(plddt_values), then
sum(weighted_plddt_values)/sum(interface_areas.values()).  The denominator
of the weighted aggregate is the sum over ALL keys of the area dict. -/
def interchain_plddt_output (plddt : List ℚ) (seqs : List (String × String))
    (ifaceRes : String → Option (Finset ℤ)) (areaDom : Finset (String × ℤ))
    (areas : String × ℤ → ℚ) : Except PyError (ℚ × ℚ) := do
  let pw ← get_plddt_values_for_residues plddt seqs ifaceRes areaDom areas
  let u ← pyDiv pw.1.sum (pw.1.length : ℚ)
  let w ← pyDiv pw.2.sum (∑ k ∈ areaDom, areas k)
  .ok (u, w)

/-- Per-residue score read at global index start + r - 1, used to state the
claim-side aggregation formulas. -/
def specScoreAt (plddt : List ℚ) (start : ℕ) (r : ℤ) : ℚ :=
  plddt.getD ((start : ℤ) + r - 1).toNat 0

/-- Claim-side aggregation formula: walk the chains in declaration order; a
chain whose letter is absent from the interface mapping contributes zero; a
present chain contributes F applied to its letter, its global start offset,
and its interface residue set. -/
def visitedSum {M : Type} [AddCommMonoid M] (letters : List String) (start : ℕ)
    (seqs : List (String × String)) (ifaceRes : String → Option (Finset ℤ))
    (F : String → ℕ → Finset ℤ → M) : M :=
  ∑ i ∈ Finset.range seqs.length,
    match ifaceRes (letters.getD i "") with
    | none => 0
    | some ps => F (letters.getD i "") (start + chainStart seqs i) ps

/-- One contact observation row of the Voronota contacts table, after the
int/float field parsing done by get_interface_residues_from_contacts. -/
structure Contact where
  chain1 : String
  residue1 : ℤ
  chain2 : String
  residue2 : ℤ
  area : ℚ
  deriving DecidableEq

/-- The pair of dicts built by get_interface_residues_from_contacts:
interface_residues maps each chain to its residue set (a chain key is
present exactly when its set is nonempty, so the total function determines
the dict), and interface_residue_areas maps each touched (chain, residue)
key to its accumulated area; areaKeys is that dict's key set. -/
@[ext]
structure InterfaceState where
  interface_residues : String → Finset ℤ
  interface_residue_areas : String × ℤ → ℚ
  areaKeys : Finset (String × ℤ)

/-- Processing of a single endpoint (c, r) of a contact with the given area:
add r to chain c's residue set (creating the set on KeyError) and add the
area to the (c, r) accumulator (initializing it on KeyError). -/
def addEndpoint (s : InterfaceState) (c : String) (r : ℤ) (a : ℚ) : InterfaceState where
  interface_residues := fun x =>
    if x = c then insert r (s.interface_residues x) else s.interface_residues x
  interface_residue_areas := fun k =>
    if k = (c, r) then s.interface_residue_areas k + a else s.interface_residue_areas k
  areaKeys := insert (c, r) s.areaKeys

/-- Processing of one contact row: both endpoints are credited with the full
contact area, first endpoint 1 then endpoint 2. -/
def addContact (s : InterfaceState) (ct : Contact) : InterfaceState :=
  addEndpoint (addEndpoint s ct.chain1 ct.residue1 ct.area) ct.chain2 ct.residue2 ct.area

/-- The empty pair of dicts the accumulation starts from. -/
def emptyInterfaceState : InterfaceState :=
  ⟨fun _ => ∅, fun _ => 0, ∅⟩

/-- get_interface_residues_from_contacts: left fold of the contact rows over
the dict-updating step. -/
def get_interface_residues_from_contacts (contacts : List Contact) : InterfaceState :=
  contacts.foldl addContact emptyInterfaceState

/-- sum(interface_residue_areas.values()): the accumulated area summed over
every key of the area dict. -/
def totalInterfaceArea (s : InterfaceState) : ℚ :=
  ∑ k ∈ s.areaKeys, s.interface_residue_areas k

/-- Invariant of the dict embedding: keys outside the key set carry the
default value 0. -/
def areasInv (s : InterfaceState) : Prop :=
  ∀ k, k ∉ s.areaKeys → s.interface_residue_areas k = 0

/-- The global index computed for chain number i (0-based) and 1-based local
residue number r: (sum of the lengths of the chains before i) + r - 1, as in
current_sequence_start_position + residue_no - 1. -/
def resolveOffset (lens : List ℕ) (i : ℕ) (r : ℕ) : ℕ :=
  ((lens.take i).sum + r) - 1

/-- Recovery of (chain number, local residue number) from a global index by
walking the chain lengths. -/
def unresolveOffset : List ℕ → ℕ → ℕ × ℕ
  | [], g => (0, g + 1)
  | l :: ls, g =>
    if g < l then (0, g + 1)
    else ((unresolveOffset ls (g - l)).1 + 1, (unresolveOffset ls (g - l)).2)

/-- Validity of an (index, residue) pair against the layout: the chain
exists and the 1-based residue number is within its length. -/
def validIdxPair (lens : List ℕ) (p : ℕ × ℕ) : Prop :=
  p.1 < lens.length ∧ 1 ≤ p.2 ∧ p.2 ≤ lens.getD p.1 0

/-- Validity of a (chain label, residue) pair: the label is the alphabet
letter of some chain of the layout and the residue number is within that
chain's length. -/
def validLabelPair (lens : List ℕ) (p : String × ℕ) : Prop :=
  ∃ i, i < lens.length ∧ alphabet.getD i "" = p.1 ∧ 1 ≤ p.2 ∧ p.2 ≤ lens.getD i 0

/-- Global index of a (chain label, local residue) pair: the label's
alphabet position selects the chain. -/
def resolveLabel (lens : List ℕ) (p : String × ℕ) : ℕ :=
  resolveOffset lens (alphabet.indexOf p.1) p.2

/-- Recovery of a (chain label, local residue) pair from a global index. -/
def unresolveLabel (lens : List ℕ) (g : ℕ) : String × ℕ :=
  (alphabet.getD (unresolveOffset lens g).1 "", (unresolveOffset lens g).2)

/-- Recursion of all_residues_in_format_of_interface_residues over the
remaining alphabet letters and sequences: every residue of every chain is
recorded with area weight 1; once the alphabet is exhausted, alphabet[0]
raises IndexError.  The two dicts are embedded as key-ordered association
lists. -/
def allResiduesGo : List String → List (String × String) →
    Except PyError (List (String × List ℤ) × List ((String × ℤ) × ℚ))
  | _, [] => .ok ([], [])
  | [], _ :: _ => .error .indexError
  | letter :: rest, (_, s) :: tl => do
    let r ← allResiduesGo rest tl
    .ok ((letter, (List.range s.length).map (fun i => (i : ℤ) + 1)) :: r.1,
         ((List.range s.length).map (fun i => ((letter, (i : ℤ) + 1), (1 : ℚ)))) ++ r.2)

/-- all_residues_in_format_of_interface_residues: start from the full
alphabet. -/
def all_residues_in_format_of_interface_residues (seqs : List (String × String)) :
    Except PyError (List (String × List ℤ) × List ((String × ℤ) × ℚ)) :=
  allResiduesGo alphabet seqs

/-! Theorems.  First, helper lemmas about the contact-accumulation state. -/

theorem addEndpoint_comm (s : InterfaceState) (c₁ : String) (r₁ : ℤ) (a₁ : ℚ)
    (c₂ : String) (r₂ : ℤ) (a₂ : ℚ) :
    addEndpoint (addEndpoint s c₁ r₁ a₁) c₂ r₂ a₂ =
      addEndpoint (addEndpoint s c₂ r₂ a₂) c₁ r₁ a₁ := by
  unfold addEndpoint
  refine InterfaceState.ext ?_ ?_ ?_
  · funext x
    dsimp only
    by_cases h₁ : x = c₁ <;> by_cases h₂ : x = c₂
    · rw [if_pos h₂, if_pos h₁, if_pos h₁, if_pos h₂]
      exact Finset.Insert.comm _ _ _
    · rw [if_neg h₂, if_pos h₁, if_pos h₁, if_neg h₂]
    · rw [if_pos h₂, if_neg h₁, if_neg h₁, if_pos h₂]
    · rw [if_neg h₂, if_neg h₁, if_neg h₁, if_neg h₂]
  · funext k
    dsimp only
    by_cases h₁ : k = (c₁, r₁) <;> by_cases h₂ : k = (c₂, r₂)
    · rw [if_pos h₂, if_pos h₁, if_pos h₁, if_pos h₂]
      exact add_right_comm _ _ _
    · rw [if_neg h₂, if_pos h₁, if_pos h₁, if_neg h₂]
    · rw [if_pos h₂, if_neg h₁, if_neg h₁, if_pos h₂]
    · rw [if_neg h₂, if_neg h₁, if_neg h₁, if_neg h₂]
  · exact Finset.Insert.comm _ _ _

theorem addContact_comm (s : InterfaceState) (ct₁ ct₂ : Contact) :
    addContact (addContact s ct₁) ct₂ = addContact (addContact s ct₂) ct₁ := by
  unfold addContact
  rw [addEndpoint_comm (addEndpoint s ct₁.chain1 ct₁.residue1 ct₁.area)
        ct₁.chain2 ct₁.residue2 ct₁.area ct₂.chain1 ct₂.residue1 ct₂.area]
  rw [addEndpoint_comm s ct₁.chain1 ct₁.residue1 ct₁.area ct₂.chain1 ct₂.residue1 ct₂.area]
  rw [addEndpoint_comm (addEndpoint (addEndpoint s ct₂.chain1 ct₂.residue1 ct₂.area)
        ct₁.chain1 ct₁.residue1 ct₁.area) ct₁.chain2 ct₁.residue2 ct₁.area
        ct₂.chain2 ct₂.residue2 ct₂.area]
  rw [addEndpoint_comm (addEndpoint s ct₂.chain1 ct₂.residue1 ct₂.area)
        ct₁.chain1 ct₁.residue1 ct₁.area ct₂.chain2 ct₂.residue2 ct₂.area]

theorem foldl_addContact_perm {l₁ l₂ : List Contact} (p : l₁.Perm l₂) :
    ∀ s, l₁.foldl addContact s = l₂.foldl addContact s := by
  induction p with
  | nil => intro s; rfl
  | cons x _ ih => intro s; simp only [List.foldl_cons]; exact ih _
  | swap x y l => intro s; simp only [List.foldl_cons]; rw [addContact_comm]
  | trans _ _ ih₁ ih₂ => intro s; rw [ih₁, ih₂]

theorem addEndpoint_areasInv {s : InterfaceState} (h : areasInv s) (c : String) (r : ℤ) (a : ℚ) :
    areasInv (addEndpoint s c r a) := by
  intro k hk
  simp only [addEndpoint, Finset.mem_insert, not_or] at hk
  simp only [addEndpoint, if_neg hk.1]
  exact h k hk.2

theorem addEndpoint_total {s : InterfaceState} (h : areasInv s) (c : String) (r : ℤ) (a : ℚ) :
    totalInterfaceArea (addEndpoint s c r a) = totalInterfaceArea s + a := by
  unfold totalInterfaceArea addEndpoint
  dsimp only
  by_cases hk : (c, r) ∈ s.areaKeys
  · rw [Finset.insert_eq_self.mpr hk]
    have hsplit : ∀ k ∈ s.areaKeys,
        (if k = (c, r) then s.interface_residue_areas k + a else s.interface_residue_areas k) =
          s.interface_residue_areas k + (if k = (c, r) then a else 0) := by
      intro k _; split <;> simp
    rw [Finset.sum_congr rfl hsplit, Finset.sum_add_distrib, Finset.sum_ite_eq' s.areaKeys (c, r) (fun _ => a), if_pos hk]
  · rw [Finset.sum_insert hk]
    have hzero : s.interface_residue_areas (c, r) = 0 := h _ hk
    have hsame : ∀ k ∈ s.areaKeys,
        (if k = (c, r) then s.interface_residue_areas k + a else s.interface_residue_areas k) =
          s.interface_residue_areas k := by
      intro k hks
      rw [if_neg]
      intro hkk; exact hk (hkk ▸ hks)
    rw [Finset.sum_congr rfl hsame, if_pos rfl, hzero]
    ring

theorem addContact_areasInv {s : InterfaceState} (h : areasInv s) (ct : Contact) :
    areasInv (addContact s ct) :=
  addEndpoint_areasInv (addEndpoint_areasInv h _ _ _) _ _ _

theorem addContact_total {s : InterfaceState} (h : areasInv s) (ct : Contact) :
    totalInterfaceArea (addContact s ct) = totalInterfaceArea s + 2 * ct.area := by
  unfold addContact
  rw [addEndpoint_total (addEndpoint_areasInv h _ _ _), addEndpoint_total h]
  ring

theorem foldl_addContact_total (l : List Contact) :
    ∀ s, areasInv s →
      totalInterfaceArea (l.foldl addContact s) = totalInterfaceArea s + 2 * (l.map Contact.area).sum := by
  induction l with
  | nil => intro s _; simp
  | cons c t ih =>
    intro s h
    simp only [List.foldl_cons, List.map_cons, List.sum_cons]
    rw [ih _ (addContact_areasInv h c), addContact_total h]
    ring

/-- C7: permuting the list of contact observations does not change the
resulting interface-residue dict or the accumulated-area dict (the
accumulation is built from commuting per-contact updates of sets and sums). -/
theorem c7_from_contacts_perm_invariant (l₁ l₂ : List Contact) (h : l₁.Perm l₂) :
    get_interface_residues_from_contacts l₁ = get_interface_residues_from_contacts l₂ :=
  foldl_addContact_perm h emptyInterfaceState

theorem c7_witness :
    List.Perm [Contact.mk "A" 1 "B" 2 3, Contact.mk "A" 1 "A" 1 4]
      [Contact.mk "A" 1 "A" 1 4, Contact.mk "A" 1 "B" 2 3] ∧
    get_interface_residues_from_contacts [Contact.mk "A" 1 "B" 2 3, Contact.mk "A" 1 "A" 1 4] =
      get_interface_residues_from_contacts [Contact.mk "A" 1 "A" 1 4, Contact.mk "A" 1 "B" 2 3] :=
  ⟨List.Perm.swap _ _ _,
   c7_from_contacts_perm_invariant _ _ (List.Perm.swap _ _ _)⟩

/-- C10: the accumulated areas summed over every key of the area dict equal
exactly twice the sum of the observations' areas, because every observation
credits its full area to both of its endpoints (twice to the same key when
the endpoints coincide). -/
theorem c10_total_area_twice_contact_sum (l : List Contact) :
    totalInterfaceArea (get_interface_residues_from_contacts l) = 2 * (l.map Contact.area).sum := by
  have h := foldl_addContact_total l emptyInterfaceState (fun _ _ => rfl)
  simpa [get_interface_residues_from_contacts, totalInterfaceArea, emptyInterfaceState] using h

deriving instance DecidableEq for Except

/-- C2: for the two-chain layout of lengths 3 and 2 and the pairwise matrix
with value i+j at [i][j], pair selection of chain A (description c1) versus
chain B (description c2) produces the forward block [[3,4],[4,5],[5,6]]
(rows 0-2, columns 3-4) and the backward block [[3,4,5],[4,5,6]] (rows 3-4,
columns 0-2), and the median over the 12 concatenated values equals the
median of the 12 reference values read off those blocks, namely 9/2. -/
theorem c2_concrete_pair_selection :
    paeSlice (fun i j => (i : ℚ) + j) 0 3 3 5 = [[3, 4], [4, 5], [5, 6]] ∧
    paeSlice (fun i j => (i : ℚ) + j) 3 5 0 3 = [[3, 4, 5], [4, 5, 6]] ∧
    process_pair_pae "c1" "c2" [("c1", "MKV"), ("c2", "MK")] (fun i j => (i : ℚ) + j) =
      .ok ([0, 1, 2, 1, 2, 3, 2, 3, 4], [3, 4, 5, 4, 5, 6, 3, 4, 4, 5, 5, 6]) ∧
    npMedian [3, 4, 5, 4, 5, 6, 3, 4, 4, 5, 5, 6] =
      npMedian ([[3, 4], [4, 5], [5, 6]].flatten ++ [[3, 4, 5], [4, 5, 6]].flatten) ∧
    npMedian [3, 4, 5, 4, 5, 6, 3, 4, 4, 5, 5, 6] = 9 / 2 := by
  refine ⟨?_, ?_, ?_, ?_, ?_⟩ <;> with_unfolding_all rfl

/-- C4 counterexample: with a one-chain layout whose chain has no interface
residues while the area dict still holds a key of a never-visited chain, the
printed aggregates fail with a plain ZeroDivisionError (sum([])/len([]))
rather than with the distinct EmptyResultError the claim requires. -/
theorem c4_counterexample :
    interchain_plddt_output [10] [("s", "M")] (fun _ => none) {("B", 1)} (fun _ => 2) =
      .error .zeroDivisionError ∧
    (Except.error PyError.zeroDivisionError : Except PyError (ℚ × ℚ)) ≠ .error .emptyResultError :=
  ⟨by with_unfolding_all rfl, by decide⟩

/-- C4 (amended): whenever no interface residue is found across the visited
chains (the collected per-residue value list is empty), the final aggregates
fail - so no 0 or NaN is returned - but the failure is a plain
ZeroDivisionError raised by the unweighted mean, not a distinct
EmptyResultError. -/
theorem c4_amended_zero_division (plddt : List ℚ) (seqs : List (String × String))
    (ifaceRes : String → Option (Finset ℤ)) (areaDom : Finset (String × ℤ))
    (areas : String × ℤ → ℚ) (wv : List ℚ)
    (h : get_plddt_values_for_residues plddt seqs ifaceRes areaDom areas = .ok ([], wv)) :
    interchain_plddt_output plddt seqs ifaceRes areaDom areas = .error .zeroDivisionError := by
  unfold interchain_plddt_output
  rw [h]
  with_unfolding_all rfl

theorem c4_witness :
    get_plddt_values_for_residues [10] [("s", "M")] (fun _ => none) {("B", 1)} (fun _ => 2) =
      .ok ([], []) ∧
    interchain_plddt_output [10] [("s", "M")] (fun _ => none) {("B", 1)} (fun _ => 2) =
      .error .zeroDivisionError :=
  ⟨by with_unfolding_all rfl,
   c4_amended_zero_division _ _ _ _ _ [] (by with_unfolding_all rfl)⟩

/-- C5 counterexample: with a zero-length second chain the concatenated
inter-chain block is empty, and summarization fails with NameError (the
error-logging f-string references the undefined variable pkl_f), not with
EmptyResultError. -/
theorem c5_counterexample :
    get_chain_v_chain_PAE_res_pkl [("A", "M"), ("B", "")] (fun i j => (i : ℚ) + j) ["A"] ["B"] =
      .error .nameError ∧
    (Except.error PyError.nameError : Except PyError PaeSummary) ≠ .error .emptyResultError :=
  ⟨by with_unfolding_all rfl, by decide⟩

/-- C5 (amended): whenever the concatenated inter-chain block collected over
the evaluated pairs is empty (given a nonempty pair list and per-pair
processing that succeeded), summarization fails - it is not silently
replaced by a zero, empty, or missing result - but the failure is a
NameError from the undefined variable pkl_f in the error-logging call, not
an EmptyResultError. -/
theorem c5_amended_name_error (seqs : List (String × String)) (pae : ℕ → ℕ → ℚ)
    (query_chains target_chains : List String) (prs : List (List ℚ × List ℚ))
    (hpairs : ((query_chains.map (fun q => target_chains.map fun t => (q, t))).flatten).isEmpty = false)
    (hmap : ((query_chains.map (fun q => target_chains.map fun t => (q, t))).flatten).mapM
        (fun p => process_pair_pae p.1 p.2 seqs pae) = .ok prs)
    (hich : ((prs.map Prod.snd).flatten).isEmpty = true) :
    get_chain_v_chain_PAE_res_pkl seqs pae query_chains target_chains = .error .nameError := by
  unfold get_chain_v_chain_PAE_res_pkl
  dsimp only
  rw [hmap]
  by_cases hch : ((prs.map Prod.fst).flatten).isEmpty <;>
    simp [hpairs, hch, hich, Bind.bind, Except.bind]

theorem c5_witness :
    (((["A"].map (fun q => ["B"].map fun t => (q, t))).flatten).isEmpty = false ∧
      ((["A"].map (fun q => ["B"].map fun t => (q, t))).flatten).mapM
        (fun p => process_pair_pae p.1 p.2 [("A", "M"), ("B", "")] (fun _ _ => (7 : ℚ))) =
        .ok [(([7] : List ℚ), ([] : List ℚ))] ∧
      (([(([7] : List ℚ), ([] : List ℚ))].map Prod.snd).flatten).isEmpty = true) ∧
    get_chain_v_chain_PAE_res_pkl [("A", "M"), ("B", "")] (fun _ _ => (7 : ℚ)) ["A"] ["B"] =
      .error .nameError :=
  ⟨⟨rfl, rfl, rfl⟩,
   c5_amended_name_error [("A", "M"), ("B", "")] (fun _ _ => (7 : ℚ)) ["A"] ["B"]
     [(([7] : List ℚ), ([] : List ℚ))] rfl rfl rfl⟩

theorem findFirstIdx_none (p : String × String → Bool) :
    ∀ seqs : List (String × String), (∀ x ∈ seqs, p x = false) → findFirstIdx p seqs = none := by
  intro seqs
  induction seqs with
  | nil => intro _; rfl
  | cons hd tl ih =>
    intro h
    have h0 : p hd = false := h hd (List.mem_cons_self hd tl)
    have h1 : findFirstIdx p tl = none := ih fun x hx => h x (List.mem_cons_of_mem hd hx)
    simp [findFirstIdx, h0, h1]

/-- C6 counterexample: a pair query naming a chain absent from the layout
fails with RuntimeError, not with LookupError as the claim states. -/
theorem c6_counterexample :
    process_pair_pae "Q" "R" [("A", "M")] (fun _ _ => 0) = .error .runtimeError ∧
    (Except.error PyError.runtimeError : Except PyError (List ℚ × List ℚ)) ≠ .error .lookupError :=
  ⟨rfl, by decide⟩

/-- C6 (amended): a pair query whose query or target chain name is absent
from the sequence list fails immediately with RuntimeError (a hard failure,
not a skip and not an empty contribution), whereas the interface aggregation
treats a chain whose letter is absent from the interface-residue dict as a
legitimate empty contribution that advances the running offset by that
chain's length without error. -/
theorem c6_amended_hard_failure_vs_skip :
    (∀ (name0 name1 : String) (seqs : List (String × String)) (pae : ℕ → ℕ → ℚ),
      ((∀ s ∈ seqs, s.1 ≠ name0) ∨ (∀ s ∈ seqs, s.1 ≠ name1)) →
      process_pair_pae name0 name1 seqs pae = .error .runtimeError) ∧
    (∀ (plddt : List ℚ) (ifaceRes : String → Option (Finset ℤ))
        (areaDom : Finset (String × ℤ)) (areas : String × ℤ → ℚ) (letter : String)
        (rest : List String) (start : ℕ) (d s : String) (tl : List (String × String)),
      ifaceRes letter = none →
      plddtChainLoop plddt ifaceRes areaDom areas (letter :: rest) start ((d, s) :: tl) =
        plddtChainLoop plddt ifaceRes areaDom areas rest (start + s.length) tl) := by
  constructor
  · intro name0 name1 seqs pae h
    rcases h with h | h
    · have hn : findFirstIdx (fun s => s.1 == name0) seqs = none :=
        findFirstIdx_none _ seqs fun x hx => by simpa using h x hx
      simp [process_pair_pae, findStartStop, hn, Bind.bind, Except.bind]
    · have hn : findFirstIdx (fun s => s.1 == name1) seqs = none :=
        findFirstIdx_none _ seqs fun x hx => by simpa using h x hx
      cases hfind : findFirstIdx (fun s => s.1 == name0) seqs with
      | none => simp [process_pair_pae, findStartStop, hfind, Bind.bind, Except.bind]
      | some idx => simp [process_pair_pae, findStartStop, hfind, hn, Bind.bind, Except.bind]
  · intro plddt ifaceRes areaDom areas letter rest start d s tl h
    conv_lhs => rw [plddtChainLoop]
    rw [h]

theorem c6_witness :
    (∀ s ∈ [("A", "M")], Prod.fst s ≠ "Q") ∧
    process_pair_pae "Q" "R" [("A", "M")] (fun _ _ => (0 : ℚ)) = .error .runtimeError ∧
    plddtChainLoop [10] (fun _ => none) ∅ (fun _ => 0) ["A"] 0 [("d", "M")] =
      plddtChainLoop [10] (fun _ => none) ∅ (fun _ => 0) [] (0 + "M".length) [] :=
  ⟨by decide,
   c6_amended_hard_failure_vs_skip.1 "Q" "R" [("A", "M")] (fun _ _ => (0 : ℚ))
     (Or.inl (by decide)),
   c6_amended_hard_failure_vs_skip.2 [10] (fun _ => none) ∅ (fun _ => 0) "A" [] 0 "d" "M" [] rfl⟩

theorem allResiduesGo_exhausted :
    ∀ (seqs : List (String × String)) (letters : List String), letters.length < seqs.length →
      allResiduesGo letters seqs = .error .indexError := by
  intro seqs
  induction seqs with
  | nil => intro letters h; exact absurd h (Nat.not_lt_zero _)
  | cons hd tl ih =>
    intro letters h
    cases letters with
    | nil => obtain ⟨d, s⟩ := hd; rfl
    | cons L Ls =>
      obtain ⟨d, s⟩ := hd
      have hlt : Ls.length < tl.length := Nat.lt_of_succ_lt_succ h
      simp [allResiduesGo, ih Ls hlt, Bind.bind, Except.bind]

theorem allResiduesGo_ok :
    ∀ (seqs : List (String × String)) (letters : List String), seqs.length ≤ letters.length →
      ∃ p, allResiduesGo letters seqs = .ok p ∧ p.1.map Prod.fst = letters.take seqs.length := by
  intro seqs
  induction seqs with
  | nil => intro letters _; exact ⟨([], []), by cases letters <;> rfl, by simp⟩
  | cons hd tl ih =>
    intro letters h
    cases letters with
    | nil => simp at h
    | cons L Ls =>
      obtain ⟨d, s⟩ := hd
      obtain ⟨p, hp, hmap⟩ := ih Ls (Nat.le_of_succ_le_succ h)
      refine ⟨((L, (List.range s.length).map (fun i => (i : ℤ) + 1)) :: p.1,
        ((List.range s.length).map (fun i => ((L, (i : ℤ) + 1), (1 : ℚ)))) ++ p.2), ?_, ?_⟩
      · simp [allResiduesGo, hp, Bind.bind, Except.bind]
      · simp [List.take_succ_cons, hmap]

/-- C8 counterexample: an empty chain list is accepted (no ConfigurationError
is raised - the function returns empty dicts), and 53 chains fail with
IndexError, not with ConfigurationError. -/
theorem c8_counterexample :
    all_residues_in_format_of_interface_residues [] = .ok ([], []) ∧
    all_residues_in_format_of_interface_residues (List.replicate 53 ("d", "M")) =
      .error .indexError ∧
    (Except.error PyError.indexError :
        Except PyError (List (String × List ℤ) × List ((String × ℤ) × ℚ))) ≠
      .error .configurationError :=
  ⟨rfl, by with_unfolding_all rfl, by decide⟩

/-- C8 (amended): there is no ConfigurationError: declaring more than 52
chains fails with IndexError once the label alphabet is exhausted, while an
empty chain list (and any zero chain length) is accepted without error; for
at most 52 chains the labels are drawn in declaration order from the fixed
uppercase-then-lowercase alphabet. -/
theorem c8_amended_alphabet_exhaustion :
    (∀ seqs : List (String × String), 52 < seqs.length →
      all_residues_in_format_of_interface_residues seqs = .error .indexError) ∧
    (∀ seqs : List (String × String), seqs.length ≤ 52 →
      ∃ p, all_residues_in_format_of_interface_residues seqs = .ok p ∧
        p.1.map Prod.fst = alphabet.take seqs.length) ∧
    all_residues_in_format_of_interface_residues [] = .ok ([], []) := by
  refine ⟨?_, ?_, rfl⟩
  · intro seqs h
    exact allResiduesGo_exhausted seqs alphabet h
  · intro seqs h
    exact allResiduesGo_ok seqs alphabet h

theorem c8_witness :
    (52 < (List.replicate 53 ("d", "M")).length ∧
      all_residues_in_format_of_interface_residues (List.replicate 53 ("d", "M")) =
        .error .indexError) ∧
    ((List.replicate 3 ("d", "MK")).length ≤ 52 ∧
      ∃ p, all_residues_in_format_of_interface_residues (List.replicate 3 ("d", "MK")) = .ok p ∧
        p.1.map Prod.fst = alphabet.take (List.replicate 3 ("d", "MK")).length) :=
  ⟨⟨by decide, c8_amended_alphabet_exhaustion.1 _ (by decide)⟩,
   ⟨by decide, c8_amended_alphabet_exhaustion.2.1 _ (by decide)⟩⟩

theorem chainStart_zero (seqs : List (String × String)) : chainStart seqs 0 = 0 := rfl

theorem chainStart_cons_succ (x : String × String) (tl : List (String × String)) (i : ℕ) :
    chainStart (x :: tl) (i + 1) = x.2.length + chainStart tl i := by
  simp [chainStart, List.take_succ_cons]

theorem chainStart_succ (seqs : List (String × String)) (i : ℕ) (h : i < seqs.length) :
    chainStart seqs (i + 1) = chainStart seqs i + (seqs.getD i ("", "")).2.length := by
  unfold chainStart
  rw [List.take_succ, List.map_append, List.sum_append]
  congr 1
  have hg : seqs[i]? = some (seqs.getD i ("", "")) := by
    rw [List.getElem?_eq_getElem h, List.getD_eq_getElem seqs ("", "") h]
  rw [hg]
  simp

theorem chainStart_mono (seqs : List (String × String)) :
    ∀ j k : ℕ, j ≤ k → chainStart seqs j ≤ chainStart seqs k := by
  induction seqs with
  | nil => intro j k _; simp [chainStart]
  | cons hd tl ih =>
    intro j k h
    cases j with
    | zero => exact Nat.zero_le _
    | succ j' =>
      cases k with
      | zero => exact absurd h (by omega)
      | succ k' =>
        rw [chainStart_cons_succ, chainStart_cons_succ]
        exact Nat.add_le_add_left (ih j' k' (Nat.le_of_succ_le_succ h)) _

theorem findFirstIdx_some (p : String × String → Bool) :
    ∀ (seqs : List (String × String)) (j : ℕ), findFirstIdx p seqs = some j →
      j < seqs.length ∧ p (seqs.getD j ("", "")) = true := by
  intro seqs
  induction seqs with
  | nil => intro j h; cases h
  | cons hd tl ih =>
    intro j h
    by_cases hp : p hd
    · simp only [findFirstIdx, if_pos hp, Option.some.injEq] at h
      subst h
      exact ⟨Nat.succ_pos _, hp⟩
    · cases hft : findFirstIdx p tl with
      | none => simp [findFirstIdx, hp, hft] at h
      | some j' =>
        simp only [findFirstIdx, if_neg hp, hft] at h
        have h' : j' + 1 = j := by simpa using h
        subst h'
        obtain ⟨hlt, hpj⟩ := ih j' hft
        exact ⟨Nat.succ_lt_succ hlt, by simpa using hpj⟩

theorem findFirstIdx_le (p : String × String → Bool) :
    ∀ (seqs : List (String × String)) (j k : ℕ), findFirstIdx p seqs = some j →
      k < seqs.length → p (seqs.getD k ("", "")) = true → j ≤ k := by
  intro seqs
  induction seqs with
  | nil => intro j k h; cases h
  | cons hd tl ih =>
    intro j k h hk hpk
    by_cases hp : p hd
    · simp only [findFirstIdx, if_pos hp, Option.some.injEq] at h
      subst h
      exact Nat.zero_le _
    · cases hft : findFirstIdx p tl with
      | none => simp [findFirstIdx, hp, hft] at h
      | some j' =>
        simp only [findFirstIdx, if_neg hp, hft] at h
        have h' : j' + 1 = j := by simpa using h
        subst h'
        cases k with
        | zero => exact absurd hpk (by simpa using hp)
        | succ k' =>
          have : j' ≤ k' :=
            ih j' k' hft (Nat.lt_of_succ_lt_succ hk) (by simpa using hpk)
          exact Nat.succ_le_succ this

theorem alphabet_getD_mem : ∀ k, k < 52 → alphabet.getD k "" ∈ alphabet := by decide

theorem alphabet_indexOf_getD : ∀ k, k < 52 → alphabet.indexOf (alphabet.getD k "") = k := by
  decide

/-- C9: when two chains share the same description string, a chain letter
whose alphabet position maps to the later chain resolves - through
get_chain_descriptions and then the description lookup of process_pair_pae -
to the global range of the FIRST chain bearing that description, so the pair
query reads the first duplicate's matrix sub-block, which is never the later
chain's own range (all lengths being at least 1). -/
theorem c9_duplicate_description_resolves_first (seqs : List (String × String)) (k j : ℕ)
    (pae : ℕ → ℕ → ℚ) (hk : k < seqs.length) (h52 : seqs.length ≤ 52)
    (hlens : ∀ s ∈ seqs, 1 ≤ s.2.length)
    (hfirst : findFirstIdx (fun s => s.1 == (seqs.getD k ("", "")).1) seqs = some j)
    (hjk : j ≠ k) :
    get_chain_descriptions seqs [alphabet.getD k ""] = .ok [(seqs.getD k ("", "")).1] ∧
    findStartStop (seqs.getD k ("", "")).1 seqs =
      .ok (chainStart seqs j, chainStart seqs j + (seqs.getD j ("", "")).2.length) ∧
    process_pair_pae (seqs.getD k ("", "")).1 (seqs.getD k ("", "")).1 seqs pae =
      .ok (get_ch_pae (chainStart seqs j) (chainStart seqs j + (seqs.getD j ("", "")).2.length) pae,
        get_ich_pae (chainStart seqs j) (chainStart seqs j + (seqs.getD j ("", "")).2.length)
          (chainStart seqs j) (chainStart seqs j + (seqs.getD j ("", "")).2.length) pae) ∧
    (chainStart seqs j, chainStart seqs j + (seqs.getD j ("", "")).2.length) ≠
      (chainStart seqs k, chainStart seqs k + (seqs.getD k ("", "")).2.length) := by
  have hk52 : k < 52 := lt_of_lt_of_le hk h52
  have hmem : alphabet.getD k "" ∈ alphabet := alphabet_getD_mem k hk52
  have hidx : alphabet.indexOf (alphabet.getD k "") = k := alphabet_indexOf_getD k hk52
  have hget : seqs[k]? = some (seqs.getD k ("", "")) := by
    rw [List.getElem?_eq_getElem hk, List.getD_eq_getElem seqs ("", "") hk]
  have hb : findStartStop (seqs.getD k ("", "")).1 seqs =
      .ok (chainStart seqs j, chainStart seqs j + (seqs.getD j ("", "")).2.length) := by
    unfold findStartStop
    rw [hfirst]
  have hj := findFirstIdx_some _ seqs j hfirst
  have hjlt : j < k := by
    have hbk : ((seqs.getD k ("", "")).1 == (seqs.getD k ("", "")).1) = true := beq_self_eq_true _
    exact lt_of_le_of_ne (findFirstIdx_le _ seqs j k hfirst hk hbk) hjk
  have hlenj : 1 ≤ (seqs.getD j ("", "")).2.length := by
    have hmemj : seqs.getD j ("", "") ∈ seqs := by
      rw [List.getD_eq_getElem seqs ("", "") hj.1]
      exact List.getElem_mem _
    exact hlens _ hmemj
  have hlt : chainStart seqs j < chainStart seqs k := by
    have h1 : chainStart seqs j + (seqs.getD j ("", "")).2.length = chainStart seqs (j + 1) :=
      (chainStart_succ seqs j hj.1).symm
    have h2 : chainStart seqs (j + 1) ≤ chainStart seqs k := chainStart_mono seqs _ _ hjlt
    omega
  refine ⟨?_, hb, ?_, ?_⟩
  · unfold get_chain_descriptions
    rw [List.mapM_cons, List.mapM_nil]
    rw [if_pos hmem, hidx]
    rw [show seqs.get? k = some (seqs.getD k ("", "")) from by
      rw [List.get?_eq_getElem?]; exact hget]
    rfl
  · unfold process_pair_pae
    rw [hb]
    rfl
  · intro heq
    have := congrArg Prod.fst heq
    simp only at this
    omega

theorem c9_witness :
    ((1 : ℕ) < 2 ∧ (2 : ℕ) ≤ 52 ∧
      (∀ s ∈ ([("d", "MK"), ("d", "M")] : List (String × String)), 1 ≤ s.2.length) ∧
      findFirstIdx (fun s => s.1 == "d") [("d", "MK"), ("d", "M")] = some 0 ∧ (0 : ℕ) ≠ 1) ∧
    findStartStop "d" [("d", "MK"), ("d", "M")] = .ok (0, 2) ∧
    ((0, 2) : ℕ × ℕ) ≠ (2, 3) := by
  refine ⟨⟨by decide, by decide, by decide, by decide, by decide⟩, ?_, ?_⟩
  · exact (c9_duplicate_description_resolves_first [("d", "MK"), ("d", "M")] 1 0 (fun _ _ => 0)
      (by decide) (by decide) (by decide) (by decide) (by decide)).2.1
  · exact (c9_duplicate_description_resolves_first [("d", "MK"), ("d", "M")] 1 0 (fun _ _ => 0)
      (by decide) (by decide) (by decide) (by decide) (by decide)).2.2.2

theorem resolveOffset_lt (lens : List ℕ) :
    ∀ i r, validIdxPair lens (i, r) → resolveOffset lens i r < lens.sum := by
  induction lens with
  | nil => intro i r h; simp [validIdxPair] at h
  | cons l ls ih =>
    intro i r h
    obtain ⟨hi, hr1, hr2⟩ := h
    cases i with
    | zero =>
      have hrl : r ≤ l := by simpa using hr2
      unfold resolveOffset
      simp only [List.take_zero, List.sum_nil, List.sum_cons]
      omega
    | succ i' =>
      have hi' : i' < ls.length := Nat.lt_of_succ_lt_succ (by simpa using hi)
      have hr2' : r ≤ ls.getD i' 0 := by simpa using hr2
      have hrec := ih i' r ⟨hi', hr1, hr2'⟩
      unfold resolveOffset at hrec ⊢
      rw [List.take_succ_cons]
      simp only [List.sum_cons]
      omega

theorem unresolveOffset_spec (lens : List ℕ) :
    ∀ g, g < lens.sum → validIdxPair lens (unresolveOffset lens g) ∧
      resolveOffset lens (unresolveOffset lens g).1 (unresolveOffset lens g).2 = g := by
  induction lens with
  | nil => intro g h; simp at h
  | cons l ls ih =>
    intro g h
    by_cases hg : g < l
    · unfold unresolveOffset
      rw [if_pos hg]
      refine ⟨⟨by simp, by omega, by simpa using hg⟩, ?_⟩
      unfold resolveOffset
      simp
    · unfold unresolveOffset
      rw [if_neg hg]
      have hgl : g - l < ls.sum := by
        simp only [List.sum_cons] at h
        omega
      obtain ⟨⟨h1, h2, h3⟩, h4⟩ := ih (g - l) hgl
      refine ⟨⟨by simpa using h1, h2, by simpa using h3⟩, ?_⟩
      unfold resolveOffset at h4 ⊢
      rw [List.take_succ_cons]
      simp only [List.sum_cons]
      omega

theorem resolveOffset_unresolve (lens : List ℕ) :
    ∀ i r, validIdxPair lens (i, r) → unresolveOffset lens (resolveOffset lens i r) = (i, r) := by
  induction lens with
  | nil => intro i r h; simp [validIdxPair] at h
  | cons l ls ih =>
    intro i r h
    obtain ⟨hi, hr1, hr2⟩ := h
    cases i with
    | zero =>
      have hrl : r ≤ l := by simpa using hr2
      have hres : resolveOffset (l :: ls) 0 r = r - 1 := by
        unfold resolveOffset; simp
      rw [hres]
      unfold unresolveOffset
      rw [if_pos (by omega)]
      have : r - 1 + 1 = r := by omega
      rw [this]
    | succ i' =>
      have hi' : i' < ls.length := Nat.lt_of_succ_lt_succ (by simpa using hi)
      have hr2' : r ≤ ls.getD i' 0 := by simpa using hr2
      have hres : resolveOffset (l :: ls) (i' + 1) r = l + resolveOffset ls i' r := by
        unfold resolveOffset
        rw [List.take_succ_cons]
        simp only [List.sum_cons]
        omega
      rw [hres]
      unfold unresolveOffset
      rw [if_neg (by omega)]
      rw [show l + resolveOffset ls i' r - l = resolveOffset ls i' r from by omega]
      rw [ih i' r ⟨hi', hr1, hr2'⟩]

/-- C3: over any valid layout (nonempty, all lengths at least 1, at most 52
chains), mapping a (chain label, 1-based local residue number) pair to the
global index start + local_residue_no - 1 is a bijection from the valid
label pairs onto [0, N), and both round trips - resolve then recover, and
recover from a global index then resolve - are the identity. -/
theorem c3_resolve_offset_bijection (lens : List ℕ) (h₁ : lens ≠ [])
    (h₂ : ∀ l ∈ lens, 1 ≤ l) (h₃ : lens.length ≤ 52) :
    Set.BijOn (resolveLabel lens) {p | validLabelPair lens p} (Set.Iio lens.sum) ∧
    (∀ p, validLabelPair lens p → unresolveLabel lens (resolveLabel lens p) = p) ∧
    (∀ g, g < lens.sum → validLabelPair lens (unresolveLabel lens g) ∧
      resolveLabel lens (unresolveLabel lens g) = g) := by
  have key1 : ∀ p, validLabelPair lens p →
      resolveLabel lens p < lens.sum ∧ unresolveLabel lens (resolveLabel lens p) = p := by
    rintro ⟨lab, r⟩ ⟨i, hi, hlab, hr1, hr2⟩
    dsimp only at hlab hr1 hr2
    have hi52 : i < 52 := lt_of_lt_of_le hi h₃
    have hidx : alphabet.indexOf lab = i := by
      rw [← hlab]; exact alphabet_indexOf_getD i hi52
    have hv : validIdxPair lens (i, r) := ⟨hi, hr1, hr2⟩
    constructor
    · unfold resolveLabel
      rw [hidx]
      exact resolveOffset_lt lens i r hv
    · unfold resolveLabel unresolveLabel
      rw [hidx, resolveOffset_unresolve lens i r hv]
      rw [hlab]
  have key2 : ∀ g, g < lens.sum → validLabelPair lens (unresolveLabel lens g) ∧
      resolveLabel lens (unresolveLabel lens g) = g := by
    intro g hg
    obtain ⟨hvalid, hres⟩ := unresolveOffset_spec lens g hg
    obtain ⟨hi, hr1, hr2⟩ := hvalid
    have hi52 : (unresolveOffset lens g).1 < 52 := lt_of_lt_of_le hi h₃
    have hidx : alphabet.indexOf (alphabet.getD (unresolveOffset lens g).1 "") =
        (unresolveOffset lens g).1 := alphabet_indexOf_getD _ hi52
    constructor
    · exact ⟨(unresolveOffset lens g).1, hi, rfl, hr1, hr2⟩
    · unfold resolveLabel unresolveLabel
      rw [hidx]
      exact hres
  have hinv : Set.InvOn (unresolveLabel lens) (resolveLabel lens)
      {p | validLabelPair lens p} (Set.Iio lens.sum) :=
    ⟨fun p hp => (key1 p hp).2, fun g hg => (key2 g (Set.mem_Iio.mp hg)).2⟩
  exact ⟨hinv.bijOn (fun p hp => Set.mem_Iio.mpr (key1 p hp).1)
      (fun g hg => (key2 g (Set.mem_Iio.mp hg)).1),
    fun p hp => (key1 p hp).2, key2⟩

theorem c3_witness :
    (([3, 2] : List ℕ) ≠ [] ∧ (∀ l ∈ ([3, 2] : List ℕ), 1 ≤ l) ∧
      ([3, 2] : List ℕ).length ≤ 52) ∧
    (Set.BijOn (resolveLabel [3, 2]) {p | validLabelPair [3, 2] p} (Set.Iio ([3, 2] : List ℕ).sum) ∧
      (∀ p, validLabelPair [3, 2] p → unresolveLabel [3, 2] (resolveLabel [3, 2] p) = p) ∧
      (∀ g, g < ([3, 2] : List ℕ).sum → validLabelPair [3, 2] (unresolveLabel [3, 2] g) ∧
        resolveLabel [3, 2] (unresolveLabel [3, 2] g) = g)) :=
  ⟨⟨by decide, by decide, by decide⟩,
   c3_resolve_offset_bijection [3, 2] (by decide) (by decide) (by decide)⟩

theorem plddtResidueLoop_ok (plddt : List ℚ) (areaDom : Finset (String × ℤ))
    (areas : String × ℤ → ℚ) (letter : String) (start : ℕ) :
    ∀ rs : List ℤ,
      (∀ r ∈ rs, 1 ≤ r ∧ (start : ℤ) + r - 1 < (plddt.length : ℤ) ∧ (letter, r) ∈ areaDom) →
      plddtResidueLoop plddt areaDom areas letter start rs =
        .ok (rs.map (fun r => specScoreAt plddt start r),
             rs.map (fun r => specScoreAt plddt start r * areas (letter, r))) := by
  intro rs
  induction rs with
  | nil => intro _; rfl
  | cons r rs ih =>
    intro h
    obtain ⟨hr1, hlt, hmem⟩ := h r (List.mem_cons_self r rs)
    have hidx : pyListIndex plddt ((start : ℤ) + r - 1) = .ok (specScoreAt plddt start r) := by
      unfold pyListIndex specScoreAt
      rw [if_pos ⟨by omega, hlt⟩]
    have hrest := ih fun x hx => h x (List.mem_cons_of_mem r hx)
    simp [plddtResidueLoop, hidx, dictGetArea, hmem, hrest, Bind.bind, Except.bind]

theorem visitedSum_cons {M : Type} [AddCommMonoid M] (L : String) (Ls : List String)
    (start : ℕ) (d s : String) (tl : List (String × String))
    (ifaceRes : String → Option (Finset ℤ)) (F : String → ℕ → Finset ℤ → M) :
    visitedSum (L :: Ls) start ((d, s) :: tl) ifaceRes F =
      (match ifaceRes L with
       | none => 0
       | some ps => F L start ps) + visitedSum Ls (start + s.length) tl ifaceRes F := by
  have hcs : ∀ i, chainStart ((d, s) :: tl) (i + 1) = s.length + chainStart tl i :=
    fun i => chainStart_cons_succ (d, s) tl i
  unfold visitedSum
  simp only [List.length_cons]
  rw [Finset.sum_range_succ', add_comm]
  congr 1
  refine Finset.sum_congr rfl fun i _ => ?_
  rw [hcs i, ← Nat.add_assoc]
  simp only [List.getD_cons_succ]

theorem plddtChainLoop_ok (plddt : List ℚ) (ifaceRes : String → Option (Finset ℤ))
    (areaDom : Finset (String × ℤ)) (areas : String × ℤ → ℚ) :
    ∀ (seqs : List (String × String)) (letters : List String) (start : ℕ),
      seqs.length ≤ letters.length →
      start + totalLen seqs ≤ plddt.length →
      (∀ i, i < seqs.length → ∀ ps, ifaceRes (letters.getD i "") = some ps →
        ∀ r ∈ ps, 1 ≤ r ∧ r ≤ ((seqs.getD i ("", "")).2.length : ℤ) ∧
          (letters.getD i "", r) ∈ areaDom) →
      ∃ pv wv, plddtChainLoop plddt ifaceRes areaDom areas letters start seqs = .ok (pv, wv) ∧
        pv.sum = visitedSum letters start seqs ifaceRes
          (fun _ st ps => ∑ r ∈ ps, specScoreAt plddt st r) ∧
        pv.length = visitedSum letters start seqs ifaceRes (fun _ _ ps => ps.card) ∧
        wv.sum = visitedSum letters start seqs ifaceRes
          (fun l st ps => ∑ r ∈ ps, specScoreAt plddt st r * areas (l, r)) := by
  intro seqs
  induction seqs with
  | nil =>
    intro letters start _ _ _
    refine ⟨[], [], by cases letters <;> rfl, ?_, ?_, ?_⟩ <;> simp [visitedSum]
  | cons hd tl ih =>
    intro letters start hlen hN hvalid
    obtain ⟨d, s⟩ := hd
    cases letters with
    | nil => simp at hlen
    | cons L Ls =>
      have hlen' : tl.length ≤ Ls.length := Nat.le_of_succ_le_succ (by simpa using hlen)
      have htot : totalLen ((d, s) :: tl) = s.length + totalLen tl := by
        unfold totalLen; simp
      have hN' : start + s.length + totalLen tl ≤ plddt.length := by omega
      have hvalid' : ∀ i, i < tl.length → ∀ ps, ifaceRes (Ls.getD i "") = some ps →
          ∀ r ∈ ps, 1 ≤ r ∧ r ≤ ((tl.getD i ("", "")).2.length : ℤ) ∧
            (Ls.getD i "", r) ∈ areaDom := by
        intro i hi ps hps r hr
        have h := hvalid (i + 1) (Nat.succ_lt_succ hi) ps (by simpa using hps) r hr
        simpa using h
      obtain ⟨pv', wv', hloop', hsum', hcnt', hwsum'⟩ := ih Ls (start + s.length) hlen' hN' hvalid'
      cases hif : ifaceRes L with
      | none =>
        refine ⟨pv', wv', ?_, ?_, ?_, ?_⟩
        · conv_lhs => rw [plddtChainLoop]
          rw [hif]
          exact hloop'
        · rw [visitedSum_cons]; simp only [hif]; rw [hsum', zero_add]
        · rw [visitedSum_cons]; simp only [hif]; rw [hcnt', zero_add]
        · rw [visitedSum_cons]; simp only [hif]; rw [hwsum', zero_add]
      | some ps =>
        have hres : ∀ r ∈ ps.sort (· ≤ ·),
            1 ≤ r ∧ (start : ℤ) + r - 1 < (plddt.length : ℤ) ∧ (L, r) ∈ areaDom := by
          intro r hr
          rw [Finset.mem_sort] at hr
          have h := hvalid 0 (Nat.succ_pos _) ps (by simpa using hif) r hr
          obtain ⟨h1, h2, h3⟩ := h
          refine ⟨h1, ?_, by simpa using h3⟩
          have hsl : r ≤ (s.length : ℤ) := by simpa using h2
          have hle : start + s.length ≤ plddt.length := by omega
          omega
        have hloop0 := plddtResidueLoop_ok plddt areaDom areas L start (ps.sort (· ≤ ·)) hres
        have hperm : ∀ f : ℤ → ℚ, ((ps.sort (· ≤ ·)).map f).sum = ∑ r ∈ ps, f r := by
          intro f
          rw [← Finset.sum_to_list]
          exact List.Perm.sum_eq (List.Perm.map f (Finset.sort_perm_toList (· ≤ ·) ps))
        refine ⟨(ps.sort (· ≤ ·)).map (fun r => specScoreAt plddt start r) ++ pv',
          (ps.sort (· ≤ ·)).map (fun r => specScoreAt plddt start r * areas (L, r)) ++ wv',
          ?_, ?_, ?_, ?_⟩
        · conv_lhs => rw [plddtChainLoop]
          rw [hif]
          simp [hloop0, hloop', Bind.bind, Except.bind]
        · rw [List.sum_append, visitedSum_cons]
          simp only [hif]
          rw [hsum', hperm]
        · rw [List.length_append, visitedSum_cons]
          simp only [hif]
          rw [hcnt', List.length_map, Finset.length_sort]
        · rw [List.sum_append, visitedSum_cons]
          simp only [hif]
          rw [hwsum', hperm]

/-- C1 counterexample: one chain (letter A) with one interface residue of
area 1, while the area dict also holds a key of chain B, which is not in the
layout and never visited.  The printed weighted aggregate is 10*1 / (1+1) =
5, whereas the sum over the visited residues only of score times area,
divided by the visited residues' total area, is 10: the code's denominator
sums the areas over ALL dict keys, not only over the visited residues. -/
theorem c1_counterexample :
    interchain_plddt_output [10] [("s1", "M")]
        (fun c => if c = "A" then some ({1} : Finset ℤ) else none) {("A", 1), ("B", 1)}
        (fun k => if k = ("A", 1) then 1 else if k = ("B", 1) then 1 else 0) = .ok (10, 5) ∧
    visitedSum alphabet 0 [("s1", "M")] (fun c => if c = "A" then some ({1} : Finset ℤ) else none)
        (fun l st ps => ∑ r ∈ ps, specScoreAt [10] st r *
          (fun k => if k = ("A", (1 : ℤ)) then (1 : ℚ) else if k = ("B", 1) then 1 else 0) (l, r)) /
      visitedSum alphabet 0 [("s1", "M")] (fun c => if c = "A" then some ({1} : Finset ℤ) else none)
        (fun l _ ps => ∑ r ∈ ps,
          (fun k => if k = ("A", (1 : ℤ)) then (1 : ℚ) else if k = ("B", 1) then 1 else 0) (l, r)) =
      10 ∧
    (5 : ℚ) ≠ 10 :=
  ⟨by with_unfolding_all rfl, by with_unfolding_all rfl, by norm_num⟩

/-- C1 (amended): under the validity hypotheses (at most 52 chains, residue
numbers within their chains, area keys present, at least one visited
interface residue, nonzero total dict area), the unweighted aggregate is the
mean of the per-residue scores over exactly the interface residues of the
visited chains, and the area-weighted aggregate is the sum over exactly
those residues of score times accumulated area divided by the sum of the
accumulated areas over ALL keys of the area dict - including keys of chains
that are never visited - not only over the visited residues. -/
theorem c1_amended_weighted_aggregate (plddt : List ℚ) (seqs : List (String × String))
    (ifaceRes : String → Option (Finset ℤ)) (areaDom : Finset (String × ℤ))
    (areas : String × ℤ → ℚ)
    (h52 : seqs.length ≤ 52)
    (hN : totalLen seqs ≤ plddt.length)
    (hvalid : ∀ i, i < seqs.length → ∀ ps, ifaceRes (alphabet.getD i "") = some ps →
      ∀ r ∈ ps, 1 ≤ r ∧ r ≤ (((seqs.getD i ("", "")).2.length : ℤ)) ∧
        (alphabet.getD i "", r) ∈ areaDom)
    (hcnt : visitedSum alphabet 0 seqs ifaceRes (fun _ _ ps => ps.card) ≠ 0)
    (hden : ∑ k ∈ areaDom, areas k ≠ 0) :
    interchain_plddt_output plddt seqs ifaceRes areaDom areas = .ok
      (visitedSum alphabet 0 seqs ifaceRes (fun _ st ps => ∑ r ∈ ps, specScoreAt plddt st r) /
        ((visitedSum alphabet 0 seqs ifaceRes (fun _ _ ps => ps.card) : ℕ) : ℚ),
       visitedSum alphabet 0 seqs ifaceRes
          (fun l st ps => ∑ r ∈ ps, specScoreAt plddt st r * areas (l, r)) /
        ∑ k ∈ areaDom, areas k) := by
  have hlen : seqs.length ≤ alphabet.length := by
    have : alphabet.length = 52 := rfl
    omega
  obtain ⟨pv, wv, hloop, hsum, hcnt', hwsum⟩ :=
    plddtChainLoop_ok plddt ifaceRes areaDom areas seqs alphabet 0 hlen (by simpa using hN) hvalid
  have hc : (pv.length : ℚ) ≠ 0 := by
    rw [hcnt']
    exact_mod_cast Nat.cast_ne_zero.mpr hcnt
  unfold interchain_plddt_output get_plddt_values_for_residues
  rw [hloop]
  simp only [Bind.bind, Except.bind, pyDiv, if_neg hc, if_neg hden]
  rw [hsum, hcnt', hwsum]

theorem c1_witness :
    (visitedSum alphabet 0 [("s", "MK")]
        (fun c => if c = "A" then some ({2} : Finset ℤ) else none) (fun _ _ ps => ps.card) ≠ 0) ∧
    ((∑ k ∈ ({("A", 2)} : Finset (String × ℤ)), (fun _ => (2 : ℚ)) k) ≠ 0) ∧
    interchain_plddt_output [10, 20] [("s", "MK")]
        (fun c => if c = "A" then some ({2} : Finset ℤ) else none) {("A", 2)} (fun _ => 2) = .ok
      (visitedSum alphabet 0 [("s", "MK")]
          (fun c => if c = "A" then some ({2} : Finset ℤ) else none)
          (fun _ st ps => ∑ r ∈ ps, specScoreAt [10, 20] st r) /
        ((visitedSum alphabet 0 [("s", "MK")]
          (fun c => if c = "A" then some ({2} : Finset ℤ) else none)
          (fun _ _ ps => ps.card) : ℕ) : ℚ),
       visitedSum alphabet 0 [("s", "MK")]
          (fun c => if c = "A" then some ({2} : Finset ℤ) else none)
          (fun l st ps => ∑ r ∈ ps, specScoreAt [10, 20] st r * (fun _ => (2 : ℚ)) (l, r)) /
        ∑ k ∈ ({("A", 2)} : Finset (String × ℤ)), (fun _ => (2 : ℚ)) k) := by
  refine ⟨by decide, by norm_num, ?_⟩
  refine c1_amended_weighted_aggregate [10, 20] [("s", "MK")]
    (fun c => if c = "A" then some ({2} : Finset ℤ) else none) {("A", 2)} (fun _ => 2)
    (by decide) (by decide) ?_ (by decide) (by norm_num)
  intro i hi ps hps r hr
  have hl : ([("s", "MK")] : List (String × String)).length = 1 := rfl
  have hi0 : i = 0 := by omega
  subst hi0
  rw [show alphabet.getD 0 "" = "A" from rfl] at hps ⊢
  have hps' : ({2} : Finset ℤ) = ps := by simpa using hps
  subst hps'
  have hr2 : r = 2 := by simpa using hr
  subst hr2
  refine ⟨by norm_num, by decide, by decide⟩
